import Mathlib

/-!
# Verification of the TfL status command-line client

A shallow embedding of the pure core of `tfl.py`: line-name normalization,
station resolution, formatters, the disruption filter, sorting/grouping of
status and arrival records, journey coordinate validation and the `line`
subcommand's output-mode branching.  Strings are modelled by Lean `String`
(lists of unicode code points), Python integers by `Int`, JSON numbers used
as coordinates by `Rat`, and optional JSON fields by `Option`.
-/

namespace Tfl

/-- ASCII whitespace (space, tab, newline, carriage return, vertical tab,
form feed), the characters matched both by Python's `str.strip` and by the
regex class `\s` on the inputs considered here. -/
def isSpace (c : Char) : Bool :=
  c.toNat = 32 ∨ c.toNat = 9 ∨ c.toNat = 10 ∨ c.toNat = 13 ∨
    c.toNat = 11 ∨ c.toNat = 12

/-- Lower-casing of a single character, as Python's `str.lower` acts on
ASCII letters. -/
def lowerChar (c : Char) : Char :=
  if 65 ≤ c.toNat ∧ c.toNat ≤ 90 then Char.ofNat (c.toNat + 32) else c

/-- Python's `str.strip`: drop whitespace from both ends. -/
def trim (l : List Char) : List Char :=
  (((l.dropWhile isSpace).reverse.dropWhile isSpace)).reverse

/-- Embedding of `re.sub(r"\s+line$", "", s)`: if the string ends with `"line"` preceded
by at least one whitespace character, remove that whole ending (the entire
whitespace run together with `"line"`); otherwise leave the string alone. -/
def stripLineSuffix (l : List Char) : List Char :=
  let r := l.reverse
  if ['e', 'n', 'i', 'l'].isPrefixOf r then
    let r1 := r.drop 4
    let r2 := r1.dropWhile isSpace
    if r2.length < r1.length then r2.reverse else l
  else l

/-- The `LINE_ALIASES` table from `tfl.py`. -/
def LINE_ALIASES : List (String × String) :=
  [("hammersmith and city", "hammersmith-city"),
   ("hammersmith & city", "hammersmith-city"),
   ("waterloo and city", "waterloo-city"),
   ("waterloo & city", "waterloo-city"),
   ("london overground", "london-overground"),
   ("elizabeth line", "elizabeth-line")]

/-- The function `normalize_line` from `tfl.py`: strip and lower-case, consult the alias
table, strip a trailing whitespace-run-plus-`"line"` suffix, consult the
alias table again, and otherwise return the string unchanged. -/
def normalize_line (s : String) : String :=
  let name : String := ⟨(trim s.data).map lowerChar⟩
  match LINE_ALIASES.lookup name with
  | some v => v
  | none =>
    let name2 : String := ⟨stripLineSuffix name.data⟩
    (LINE_ALIASES.lookup name2).getD name2

/-! ## Data model

JSON records, with `Option` marking the fields the code reads through
`dict.get` (absent fields) and plain fields for the ones it indexes
directly (a `KeyError` on those aborts the process, so the embedding takes
them as given). -/

/-- One entry of a line's `lineStatuses` array. -/
structure LineStatus where
  statusSeverity : Option Int
  statusSeverityDescription : Option String
  reason : Option String
deriving DecidableEq

/-- A record of the line-status response.  `name` is indexed directly by the
code; `lineStatuses` is read with `.get`, so absence is `none` and is
distinct from an explicitly empty array. -/
structure Line where
  id : String
  name : String
  modeName : String
  lineStatuses : Option (List LineStatus)
deriving DecidableEq

/-- One match of the stop-search response. -/
structure SearchMatch where
  id : String
  name : String
  lat : Option Rat
  lon : Option Rat
deriving DecidableEq

/-- The stop-search response: its `matches` array (`.get("matches", [])`). -/
structure SearchResponse where
  «matches» : List SearchMatch
deriving DecidableEq

/-- One entry of a stop detail's `children` array. -/
structure StopChild where
  id : String
deriving DecidableEq

/-- The stop-detail response used to resolve hub children
(`.get("children", [])`). -/
structure StopDetail where
  children : List StopChild
deriving DecidableEq

/-- The value object built by `resolve_station`. -/
structure Station where
  id : String
  name : String
  lat : Rat
  lon : Rat
  naptan : String
deriving DecidableEq

/-- One record of the arrivals response. -/
structure Arrival where
  lineName : Option String
  destinationName : Option String
  platformName : Option String
  timeToStation : Option Int
deriving DecidableEq

/-! ## Severity table -/

/-- The static `SEVERITY` table from `tfl.py`: severity ↦ (emoji, label). -/
def SEVERITY : List (Int × String × String) :=
  [(0, "🔴", "Special Service"),
   (1, "🔴", "Closed"),
   (2, "🔴", "Suspended"),
   (3, "🔴", "Part Suspended"),
   (4, "🔴", "Planned Closure"),
   (5, "🔴", "Part Closure"),
   (6, "🔴", "Severe Delays"),
   (7, "🟡", "Reduced Service"),
   (8, "🟡", "Bus Service"),
   (9, "🟡", "Minor Delays"),
   (10, "🟢", "Good Service"),
   (11, "🔴", "Part Closed"),
   (14, "🟢", "Good Service"),
   (15, "🔴", "Service Closed"),
   (16, "🔴", "Not Running"),
   (17, "🟡", "Issues Reported"),
   (18, "🟡", "No Step Free Access"),
   (19, "🟡", "Change of Frequency"),
   (20, "🔴", "Diverted")]

/-- Embedding of `SEVERITY.get(sev, ("⚪", "Unknown"))`. -/
def severityEntry (sev : Int) : String × String :=
  (SEVERITY.lookup sev).getD ("⚪", "Unknown")

/-! ## Station resolution

`resolve_station` embedded over the two HTTP responses it consumes: the
stop-search response and (consulted only for `HUB`-prefixed matches) the
hub's stop-detail response.  The zero-match `sys.exit(1)` path is `none`. -/

/-- Python `s.startswith(pre)`. -/
def startsWith (s pre : String) : Bool :=
  pre.data.isPrefixOf s.data

/-- The function `resolve_station` from `tfl.py`. -/
def resolve_station (search : SearchResponse) (hubDetail : StopDetail) :
    Option Station :=
  match search.«matches» with
  | [] => none
  | best :: _ =>
    let station_id := best.id
    let naptan :=
      if startsWith station_id "HUB" then
        match hubDetail.children.find? (fun c => startsWith c.id "940GZZLU") with
        | some child => child.id
        | none => station_id
      else station_id
    some { id := station_id, name := best.name,
           lat := best.lat.getD 0, lon := best.lon.getD 0, naptan := naptan }

/-! ## Line-status formatting -/

/-- Python `reason.strip().replace("\n", " ")`. -/
def normalizeReason (r : String) : String :=
  ⟨(trim r.data).map fun c => if c = '\n' then ' ' else c⟩

/-- The loop body of `format_line`: for each status entry, one line with
the table's emoji for its severity and the record's own description, plus
an indented reason line when a (truthy) reason is present. -/
def statusParts (name : String) : List LineStatus → List String
  | [] => []
  | st :: rest =>
    let sev := st.statusSeverity.getD 10
    let emoji := (severityEntry sev).1
    let desc := st.statusSeverityDescription.getD "Unknown"
    let head := emoji ++ " " ++ name ++ ": " ++ desc
    let reasonLines :=
      match st.reason with
      | some r => if r = "" then [] else ["   " ++ normalizeReason r]
      | none => []
    head :: (reasonLines ++ statusParts name rest)

/-- The function `format_line` from `tfl.py`. -/
def format_line (line : Line) : String :=
  let parts := statusParts line.name (line.lineStatuses.getD [])
  if parts.isEmpty then "⚪ " ++ line.name ++ ": Unknown"
  else String.intercalate "\n" parts

/-! ## Disruption filter -/

/-- Embedding of `s.get("statusSeverity", 10) not in (10, 14)`: the status entry counts
as a disruption. -/
def sevBad (s : LineStatus) : Bool :=
  let v := s.statusSeverity.getD 10
  ¬ (v = 10 ∨ v = 14)

/-- The `cmd_disruptions` filter predicate: some status entry of the line is
a disruption. -/
def isDisrupted (l : Line) : Bool :=
  (l.lineStatuses.getD []).any sevBad

/-- The list of disrupted lines kept by `cmd_disruptions`. -/
def disruptedLines (data : List Line) : List Line :=
  data.filter isDisrupted

/-! ## Sorting

Python's `sorted` is a stable ascending sort; it is embedded as an
insertion sort that inserts each element in front of the first
already-placed element with a key not below its own. -/

/-- Insert `x` in front of the first element whose key is `≥ key x`. -/
def insertByKey {α κ : Type} [LinearOrder κ] (key : α → κ) (x : α) :
    List α → List α
  | [] => [x]
  | y :: ys =>
    if key x ≤ key y then x :: y :: ys else y :: insertByKey key x ys

/-- Stable ascending insertion sort by `key`. -/
def sortByKey {α κ : Type} [LinearOrder κ] (key : α → κ) : List α → List α
  | [] => []
  | x :: xs => insertByKey key x (sortByKey key xs)

/-! ## The status and disruptions commands (text mode, after the fetch) -/

/-- The sort key `x.get("lineStatuses", [{}])[0].get("statusSeverity", 10)`
of `cmd_status` and `cmd_disruptions`.  When the `lineStatuses` key is
present but holds an empty array, the `[0]` index raises `IndexError`,
modelled by `none`. -/
def statusSortKey (l : Line) : Option Int :=
  match l.lineStatuses.getD [⟨none, none, none⟩] with
  | [] => none
  | s :: _ => some (s.statusSeverity.getD 10)

/-- Embedding of `sorted(lines, key=...)` over the status sort key; `none` when some
line's key raises. -/
def sortLinesBySeverity (lines : List Line) : Option (List Line) :=
  if lines.all (fun l => (statusSortKey l).isSome) then
    some (sortByKey (fun l => (statusSortKey l).getD 0) lines)
  else none

/-- The text-mode output lines of `cmd_status`, as a function of the
fetched status response. -/
def cmd_status (data : List Line) : Option (List String) :=
  (sortLinesBySeverity data).map (fun ls => ls.map format_line)

/-- The text-mode output lines of `cmd_disruptions`, as a function of the
fetched status response. -/
def cmd_disruptions (data : List Line) : Option (List String) :=
  let disrupted := disruptedLines data
  if disrupted.isEmpty then some ["🟢 All lines running normally"]
  else (sortLinesBySeverity disrupted).map (fun ls => ls.map format_line)

/-- The mocked status response of the spec's end-to-end property:
Victoria with severity 10, Northern with severity 6 and a reason,
Central with severity 9. -/
def mockVictoria : Line :=
  ⟨"victoria", "Victoria", "tube",
    some [⟨some 10, some "Good Service", none⟩]⟩

def mockNorthern : Line :=
  ⟨"northern", "Northern", "tube",
    some [⟨some 6, some "Severe Delays",
      some "Northern Line: Severe delays due to a signal failure."⟩]⟩

def mockCentral : Line :=
  ⟨"central", "Central", "tube",
    some [⟨some 9, some "Minor Delays", none⟩]⟩

/-! ## Arrival formatting -/

/-- Helper of `removeAll`: remove every (non-overlapping, left-to-right)
occurrence of the pattern `p :: ps`. -/
def removeAllAux (p : Char) (ps : List Char) : List Char → List Char
  | [] => []
  | c :: rest =>
    if c = p ∧ ps.isPrefixOf rest then removeAllAux p ps (rest.drop ps.length)
    else c :: removeAllAux p ps rest
termination_by l => l.length
decreasing_by
  · simp only [List.length_drop, List.length_cons]
    omega
  · simp only [List.length_cons]
    omega

/-- Python `s.replace(pat, "")`: delete every occurrence of `pat`,
scanning left to right. -/
def removeAll (pat s : List Char) : List Char :=
  match pat with
  | [] => s
  | p :: ps => removeAllAux p ps s

/-- Helper of `splitOn`: split at every occurrence of the pattern
`p :: ps`, accumulating the current piece in reverse in `acc`. -/
def splitOnAux (p : Char) (ps : List Char) (acc : List Char) :
    List Char → List (List Char)
  | [] => [acc.reverse]
  | c :: rest =>
    if c = p ∧ ps.isPrefixOf rest then
      acc.reverse :: splitOnAux p ps [] (rest.drop ps.length)
    else splitOnAux p ps (c :: acc) rest
termination_by l => l.length
decreasing_by
  · simp only [List.length_drop, List.length_cons]
    omega
  · simp only [List.length_cons]
    omega

/-- Python `s.split(pat)` for a non-empty separator. -/
def splitOn (pat s : List Char) : List (List Char) :=
  match pat with
  | [] => [s]
  | p :: ps => splitOnAux p ps [] s

/-- Helper of `containsSub`. -/
def containsSubAux (p : Char) (ps : List Char) : List Char → Bool
  | [] => false
  | c :: rest => (c = p ∧ ps.isPrefixOf rest) || containsSubAux p ps rest

/-- Python `pat in s` for strings. -/
def containsSub (pat s : List Char) : Bool :=
  match pat with
  | [] => true
  | p :: ps => containsSubAux p ps s

/-- The function `format_arrival` from `tfl.py`.  The mandatory `timeToStation` index
raises `KeyError` when absent, modelled by `none`. -/
def format_arrival (a : Arrival) : Option String :=
  match a.timeToStation with
  | none => none
  | some tts =>
    let mins : Int := Int.fdiv tts 60
    let platform := a.platformName.getD ""
    let dest : String :=
      ⟨removeAll " Underground Station".data (a.destinationName.getD "Unknown").data⟩
    let time_str := if mins = 0 then "due" else toString mins ++ "min"
    let dp : String × String :=
      if containsSub " - ".data platform.data then
        match splitOn " - ".data platform.data with
        | d :: pn :: _ => (⟨d⟩, ⟨pn⟩)
        | _ => ("", platform)
      else ("", platform)
    if dp.1 ≠ "" then
      some ("    " ++ dp.1 ++ " → " ++ dest ++ " - " ++ time_str ++
        " (" ++ dp.2 ++ ")")
    else
      some ("    " ++ dest ++ " - " ++ time_str ++ " (" ++ dp.2 ++ ")")

/-! ## Arrivals sorting and grouping -/

/-- Embedding of `x.get("lineName", "")`, the `groupby` key of `cmd_arrivals`. -/
def arrivalName (a : Arrival) : String :=
  a.lineName.getD ""

/-- Embedding of `(x.get("lineName", ""), x.get("timeToStation", 0))`, the sort key of
`cmd_arrivals`, ordered lexicographically as Python orders tuples. -/
def arrivalKey (a : Arrival) : String ×ₗ Int :=
  toLex (arrivalName a, a.timeToStation.getD 0)

/-- Helper of `groupRuns`: prepend `x` to the first run when its key
matches, else open a new run. -/
def insertRun {α κ : Type} [DecidableEq κ] (key : α → κ) (x : α) :
    List (κ × List α) → List (κ × List α)
  | [] => [(key x, [x])]
  | (k, g) :: rest =>
    if key x = k then (k, x :: g) :: rest
    else (key x, [x]) :: (k, g) :: rest

/-- Embedding of `itertools.groupby`: maximal runs of consecutive elements with equal
key, paired with that key. -/
def groupRuns {α κ : Type} [DecidableEq κ] (key : α → κ) :
    List α → List (κ × List α)
  | [] => []
  | x :: xs => insertRun key x (groupRuns key xs)

/-- The sort–group–cap pipeline of `cmd_arrivals` (text mode, after the
optional `--line` filter): sort by `(lineName, timeToStation)`, group
consecutive equal `lineName`, and cap each group at `limit` entries. -/
def cmd_arrivals_groups (data : List Arrival) (limit : Nat) :
    List (String × List Arrival) :=
  (groupRuns arrivalName (sortByKey arrivalKey data)).map
    (fun g => (g.1, g.2.take limit))

/-! ## Journey coordinate validation -/

/-- What `cmd_journey` does after resolving both stations: fail fast on the
origin, fail fast on the destination, or issue the journey-planning call
with both coordinate pairs. -/
inductive JourneyAction where
  | errOrigin
  | errDest
  | call (fromLat fromLon toLat toLon : Rat)
deriving DecidableEq

/-- The coordinate-validation prefix of `cmd_journey` from `tfl.py`. -/
def cmd_journey (fromStation toStation : Station) : JourneyAction :=
  if fromStation.lat = 0 ∧ fromStation.lon = 0 then .errOrigin
  else if toStation.lat = 0 ∧ toStation.lon = 0 then .errDest
  else .call fromStation.lat fromStation.lon toStation.lat toStation.lon

/-! ## The `line` subcommand -/

/-- Outcome of `cmd_line` after the fetch: the raw JSON dump (exit 0), the
"not found" message (exit 1), or the formatted lines (exit 0). -/
inductive LineCmdResult where
  | rawJson (data : List Line)
  | notFound (name : String)
  | formatted (output : List String)
deriving DecidableEq

/-- The function `cmd_line` from `tfl.py`, as a function of the `--json` flag, the raw
(unnormalized) name argument and the fetched line list. -/
def cmd_line (jsonMode : Bool) (name : String) (data : List Line) :
    LineCmdResult :=
  if jsonMode then .rawJson data
  else if data.isEmpty then .notFound name
  else .formatted (data.map format_line)

/-- The process exit status each `cmd_line` outcome produces. -/
def lineCmdExitCode : LineCmdResult → Nat
  | .notFound _ => 1
  | _ => 0

/-! ## Claim C3: line-status formatting

The claim says each rendered status line uses the table's *(emoji, label)*
pair.  The code uses only the emoji from the table; the label it prints is
the record's own `statusSeverityDescription` (defaulted to `"Unknown"`),
and the table's label is discarded. -/

/-- The per-status rendering the claim describes: both emoji and label
taken from the static severity table (fallback pair `("⚪", "Unknown")`),
the reason appended whitespace-normalized and indented. -/
def statusLineClaim (name : String) (st : LineStatus) : List String :=
  let sev := st.statusSeverity.getD 10
  let entry := severityEntry sev
  (entry.1 ++ " " ++ name ++ ": " ++ entry.2) ::
    (match st.reason with
     | some r => if r = "" then [] else ["   " ++ normalizeReason r]
     | none => [])

/-- The function `format_line` as the claim states it. -/
def format_line_claim (line : Line) : String :=
  match line.lineStatuses.getD [] with
  | [] => "⚪ " ++ line.name ++ ": Unknown"
  | sts => String.intercalate "\n" (sts.flatMap (statusLineClaim line.name))

/-- The per-status rendering the code performs: emoji from the table
(fallback `"⚪"`), label from the record's `statusSeverityDescription`
(fallback `"Unknown"`). -/
def statusLineAmended (name : String) (st : LineStatus) : List String :=
  let sev := st.statusSeverity.getD 10
  let emoji := (severityEntry sev).1
  let label := st.statusSeverityDescription.getD "Unknown"
  (emoji ++ " " ++ name ++ ": " ++ label) ::
    (match st.reason with
     | some r => if r = "" then [] else ["   " ++ normalizeReason r]
     | none => [])

/-- The function `format_line` as the amended claim states it. -/
def format_line_amended (line : Line) : String :=
  match line.lineStatuses.getD [] with
  | [] => "⚪ " ++ line.name ++ ": Unknown"
  | sts => String.intercalate "\n" (sts.flatMap (statusLineAmended line.name))

/-! ## Claim C7: sorting and grouping -/

/-- The total extension of the status sort key used underneath the
`sortLinesBySeverity` guard (under the guard every key is `some`). -/
def statusKeyD (l : Line) : Int :=
  (statusSortKey l).getD 0

/-! ## Claim C6: arrival formatting

The claim renders `"due"` exactly when `timeToStation = 0`.  The code
renders `"due"` whenever the floored minutes value is `0`, i.e. for every
`timeToStation` in `[0, 60)`; `timeToStation = 30` distinguishes them. -/

/-- The function `format_arrival` as the claim states it: identical to the code except
that `"due"` is produced exactly when `timeToStation = 0` ("otherwise
Nmin"). -/
def format_arrival_claim (a : Arrival) : Option String :=
  match a.timeToStation with
  | none => none
  | some tts =>
    let mins : Int := Int.fdiv tts 60
    let platform := a.platformName.getD ""
    let dest : String :=
      ⟨removeAll " Underground Station".data (a.destinationName.getD "Unknown").data⟩
    let time_str := if tts = 0 then "due" else toString mins ++ "min"
    let dp : String × String :=
      if containsSub " - ".data platform.data then
        match splitOn " - ".data platform.data with
        | d :: pn :: _ => (⟨d⟩, ⟨pn⟩)
        | _ => ("", platform)
      else ("", platform)
    if dp.1 ≠ "" then
      some ("    " ++ dp.1 ++ " → " ++ dest ++ " - " ++ time_str ++
        " (" ++ dp.2 ++ ")")
    else
      some ("    " ++ dest ++ " - " ++ time_str ++ " (" ++ dp.2 ++ ")")

/-! ## Claim C4: line-name normalization

The claim's step (c) strips the literal five-character suffix `" line"`.
The code strips the regex `\\s+line$`: the whole run of trailing
whitespace before `"line"` is removed, so `"victoria  line"` (two spaces)
normalizes to `"victoria"`, not `"victoria "`. -/

/-- The alias lookup exactly as the claim enumerates it. -/
def aliasLookupClaim (s : String) : Option String :=
  if s = "hammersmith and city" then some "hammersmith-city"
  else if s = "hammersmith & city" then some "hammersmith-city"
  else if s = "waterloo and city" then some "waterloo-city"
  else if s = "waterloo & city" then some "waterloo-city"
  else if s = "london overground" then some "london-overground"
  else if s = "elizabeth line" then some "elizabeth-line"
  else none

/-- Step (c) as the claim states it: strip the literal suffix `" line"`. -/
def stripLiteralLineSuffix (l : List Char) : List Char :=
  if ['e', 'n', 'i', 'l', ' '].isPrefixOf l.reverse then
    (l.reverse.drop 5).reverse
  else l

/-- The function `normalize_line` as the claim states it: trim and lowercase, alias
lookup, strip a trailing literal `" line"`, alias lookup again, else
unchanged. -/
def normalize_line_claim (s : String) : String :=
  let t : String := ⟨(trim s.data).map lowerChar⟩
  match aliasLookupClaim t with
  | some v => v
  | none =>
    let t2 : String := ⟨stripLiteralLineSuffix t.data⟩
    (aliasLookupClaim t2).getD t2

/-- Step (c) as amended: strip a trailing suffix consisting of at least one
whitespace character followed by `"line"`, removing the entire whitespace
run. -/
def stripLineSuffixAmended (l : List Char) : List Char :=
  match l.reverse with
  | c4 :: c3 :: c2 :: c1 :: c :: rest =>
    if 'e' = c4 ∧ 'n' = c3 ∧ 'i' = c2 ∧ 'l' = c1 ∧ isSpace c then
      ((c :: rest).dropWhile isSpace).reverse
    else l
  | _ => l

/-- The function `normalize_line` as the amended claim states it. -/
def normalize_line_amended (s : String) : String :=
  let t : String := ⟨(trim s.data).map lowerChar⟩
  match aliasLookupClaim t with
  | some v => v
  | none =>
    let t2 : String := ⟨stripLineSuffixAmended t.data⟩
    (aliasLookupClaim t2).getD t2

/-! ## Theorems -/

example : normalize_line "Victoria Line" = "victoria" := by decide

example : normalize_line "hammersmith & city" = "hammersmith-city" := by decide

example : normalize_line "  victoria  " = "victoria" := by decide

example : normalize_line "victoria  line" = "victoria" := by decide

example : normalize_line "foo line line" = "foo line" := by decide

example : normalize_line "foo line" = "foo" := by decide

example :
    format_line ⟨"victoria", "Victoria", "tube",
      some [⟨some 6, some "Severe Delays", some " bad\nday "⟩]⟩ =
      "🔴 Victoria: Severe Delays\n   bad day" := by decide

example :
    format_line ⟨"victoria", "Victoria", "tube", some []⟩ =
      "⚪ Victoria: Unknown" := by decide

example :
    format_line ⟨"victoria", "Victoria", "tube",
      some [⟨some 6, some "Minor Delays", none⟩]⟩ =
      "🔴 Victoria: Minor Delays" := by decide

example :
    resolve_station ⟨[⟨"HUBBAN", "Bank", some 51, some 0⟩]⟩
        ⟨[⟨"910GBANK"⟩, ⟨"940GZZLUBNK"⟩]⟩ =
      some ⟨"HUBBAN", "Bank", 51, 0, "940GZZLUBNK"⟩ := by decide

example :
    resolve_station ⟨[⟨"940GZZLUOXC", "Oxford Circus", none, none⟩]⟩ ⟨[]⟩ =
      some ⟨"940GZZLUOXC", "Oxford Circus", 0, 0, "940GZZLUOXC"⟩ := by decide

section SortByKey

variable {α κ : Type} [LinearOrder κ] (key : α → κ)

theorem insertByKey_perm (x : α) (l : List α) :
    List.Perm (insertByKey key x l) (x :: l) := by
  induction l with
  | nil => rfl
  | cons y ys ih =>
    simp only [insertByKey]
    split
    · rfl
    · exact ((ih.cons y).trans (List.Perm.swap x y ys))

theorem sortByKey_perm (l : List α) : List.Perm (sortByKey key l) l := by
  induction l with
  | nil => rfl
  | cons x xs ih =>
    exact (insertByKey_perm key x (sortByKey key xs)).trans (ih.cons x)

theorem insertByKey_pairwise (x : α) (l : List α)
    (h : l.Pairwise fun a b => key a ≤ key b) :
    (insertByKey key x l).Pairwise fun a b => key a ≤ key b := by
  induction l with
  | nil => simp [insertByKey]
  | cons y ys ih =>
    simp only [insertByKey]
    split
    · rename_i hxy
      refine List.Pairwise.cons ?_ h
      intro b hb
      rcases List.mem_cons.mp hb with hb | hb
      · exact hb ▸ hxy
      · exact le_trans hxy (List.rel_of_pairwise_cons h hb)
    · rename_i hxy
      have hyx : key y ≤ key x := le_of_lt (not_le.mp hxy)
      refine List.Pairwise.cons ?_ (ih h.of_cons)
      intro b hb
      have hmem := (insertByKey_perm key x ys).mem_iff.mp hb
      rcases List.mem_cons.mp hmem with hb | hb
      · exact hb ▸ hyx
      · exact List.rel_of_pairwise_cons h hb

theorem sortByKey_pairwise (l : List α) :
    (sortByKey key l).Pairwise fun a b => key a ≤ key b := by
  induction l with
  | nil => simp [sortByKey]
  | cons x xs ih => exact insertByKey_pairwise key x _ ih

variable [DecidableEq κ]

theorem insertByKey_filter_key (x : α) (l : List α) (k : κ) :
    (insertByKey key x l).filter (fun a => decide (key a = k)) =
      if key x = k then x :: l.filter (fun a => decide (key a = k))
      else l.filter (fun a => decide (key a = k)) := by
  induction l with
  | nil => by_cases hx : key x = k <;> simp [insertByKey, List.filter, hx]
  | cons y ys ih =>
    simp only [insertByKey]
    split
    · rename_i hxy
      by_cases hx : key x = k <;> simp [List.filter_cons, hx]
    · rename_i hxy
      by_cases hx : key x = k
      · have hy : ¬ key y = k := by
          intro hy
          exact hxy (le_of_eq (hx.trans hy.symm))
        simp [List.filter_cons, hx, hy, ih]
      · simp [List.filter_cons, hx, ih]

/-- Stability: the sort does not reorder elements of equal key. -/
theorem sortByKey_filter_key (l : List α) (k : κ) :
    (sortByKey key l).filter (fun a => decide (key a = k)) =
      l.filter (fun a => decide (key a = k)) := by
  induction l with
  | nil => rfl
  | cons x xs ih =>
    rw [sortByKey, insertByKey_filter_key, ih]
    by_cases hx : key x = k <;> simp [List.filter_cons, hx]

end SortByKey

example :
    cmd_status [mockVictoria, mockNorthern, mockCentral] =
      some [format_line mockNorthern, format_line mockCentral,
            format_line mockVictoria] := by decide

example :
    disruptedLines [mockVictoria, mockNorthern, mockCentral] =
      [mockNorthern, mockCentral] := by decide

example : cmd_disruptions [mockVictoria] =
    some ["🟢 All lines running normally"] := by decide

example :
    format_arrival ⟨some "Victoria", some "Brixton Underground Station",
      some "Southbound - Platform 5", some 65⟩ =
      some "    Southbound → Brixton - 1min (Platform 5)" := by
  simp [format_arrival, removeAll, removeAllAux, splitOn, splitOnAux,
    containsSub, containsSubAux, List.isPrefixOf]
  rfl

example :
    format_arrival ⟨some "Central", some "Epping Underground Station",
      some "Platform 2", some 0⟩ =
      some "    Epping - due (Platform 2)" := by
  simp [format_arrival, removeAll, removeAllAux, splitOn, splitOnAux,
    containsSub, containsSubAux, List.isPrefixOf]

example :
    format_arrival ⟨some "Central", some "Epping Underground Station",
      some "Platform 2", some 30⟩ =
      some "    Epping - due (Platform 2)" := by
  simp [format_arrival, removeAll, removeAllAux, splitOn, splitOnAux,
    containsSub, containsSubAux, List.isPrefixOf]

example : cmd_line true "bakerloo" [] = .rawJson [] := by decide

example : lineCmdExitCode (cmd_line true "bakerloo" []) = 0 := by decide

example : cmd_line false "bakerloo" [] = .notFound "bakerloo" := by decide

/-! ## Claim C1: station resolution -/

/-- Claim C1: `resolve_station` fails (non-zero exit with a stderr message,
embedded as `none`) exactly when the stop-search response has zero matches;
otherwise it takes the first match, and for a `HUB`-prefixed match id it
sets the crowding identifier to the id of the first hub child whose id
starts with `940GZZLU`, falling back to the hub id when no child
qualifies; for a non-hub match the crowding identifier is the match id. -/
theorem resolve_station_correct (search : SearchResponse) (hub : StopDetail) :
    (resolve_station search hub = none ↔ search.«matches» = []) ∧
    (∀ best rest, search.«matches» = best :: rest →
      ∃ st : Station, resolve_station search hub = some st ∧
        st.id = best.id ∧ st.name = best.name ∧
        (startsWith best.id "HUB" = false → st.naptan = best.id) ∧
        (startsWith best.id "HUB" = true →
          ((∀ c ∈ hub.children, startsWith c.id "940GZZLU" = false) ∧
            st.naptan = best.id) ∨
          (∃ c pre post, hub.children = pre ++ c :: post ∧
            startsWith c.id "940GZZLU" = true ∧
            (∀ x ∈ pre, startsWith x.id "940GZZLU" = false) ∧
            st.naptan = c.id))) := by
  constructor
  · cases hm : search.«matches» with
    | nil => simp [resolve_station, hm]
    | cons best rest => simp [resolve_station, hm]
  · intro best rest hm
    refine ⟨_, by rw [resolve_station, hm], rfl, rfl, ?_, ?_⟩
    · intro hhub
      simp only [hhub, Bool.false_eq_true, if_false]
    · intro hhub
      simp only [hhub, if_true]
      cases hf : hub.children.find? (fun c => startsWith c.id "940GZZLU") with
      | none =>
        left
        refine ⟨?_, rfl⟩
        intro c hc
        have := List.find?_eq_none.mp hf c hc
        simpa using this
      | some c =>
        right
        obtain ⟨hp, pre, post, hsplit, hall⟩ := List.find?_eq_some.mp hf
        exact ⟨c, pre, post, hsplit, hp, fun x hx => by simpa using hall x hx, rfl⟩

/-- Witness for C1 at a concrete hub search response with one qualifying
child. -/
theorem resolve_station_correct_witness :
    ∃ st : Station,
      resolve_station ⟨[⟨"HUBBAN", "Bank", some 51, some 0⟩]⟩
          ⟨[⟨"940GZZLUBNK"⟩]⟩ = some st ∧
      st.id = "HUBBAN" ∧ st.naptan = "940GZZLUBNK" := by
  obtain ⟨-, h⟩ :=
    resolve_station_correct ⟨[⟨"HUBBAN", "Bank", some 51, some 0⟩]⟩
      ⟨[⟨"940GZZLUBNK"⟩]⟩
  obtain ⟨st, hst, hid, -, -, hhub⟩ := h ⟨"HUBBAN", "Bank", some 51, some 0⟩ [] rfl
  refine ⟨st, hst, hid, ?_⟩
  rcases hhub (by decide) with ⟨hall, -⟩ | ⟨c, pre, post, hsplit, hc, -, hn⟩
  · exact absurd (hall ⟨"940GZZLUBNK"⟩ (by simp)) (by decide)
  · rcases pre with - | ⟨a, pre'⟩
    · simp only [List.nil_append, List.cons.injEq] at hsplit
      rw [hn, ← hsplit.1]
    · simp only [List.cons_append, List.cons.injEq] at hsplit
      exact absurd hsplit.2 (by simp)

/-! ## Claim C2: the disruption filter -/

/-- Claim C2: the disruptions view keeps exactly the lines having at least
one status entry whose severity (defaulted to 10) is neither 10 nor 14; a
line whose only status has severity 10 is excluded, a line with a
severity-6 status is included, and when nothing is kept the output is the
single "all lines running normally" message. -/
theorem disruptions_filter_correct (data : List Line) :
    (∀ l : Line, l ∈ disruptedLines data ↔
      l ∈ data ∧ ∃ s ∈ l.lineStatuses.getD [],
        s.statusSeverity.getD 10 ≠ 10 ∧ s.statusSeverity.getD 10 ≠ 14) ∧
    (disruptedLines data = [] →
      cmd_disruptions data = some ["🟢 All lines running normally"]) ∧
    isDisrupted mockVictoria = false ∧
    isDisrupted mockNorthern = true ∧
    disruptedLines [mockVictoria, mockNorthern, mockCentral] =
      [mockNorthern, mockCentral] := by
  refine ⟨?_, ?_, by decide, by decide, by decide⟩
  · intro l
    simp only [disruptedLines, List.mem_filter, isDisrupted, List.any_eq_true,
      sevBad, decide_eq_true_eq, not_or]
  · intro h
    simp [cmd_disruptions, h]

/-- Witness for C2: an all-severity-10 response produces the
"all lines running normally" message. -/
theorem disruptions_filter_correct_witness :
    cmd_disruptions [mockVictoria] = some ["🟢 All lines running normally"] :=
  (disruptions_filter_correct [mockVictoria]).2.1 (by decide)

/-! ## Claim C8: journey coordinate validation -/

/-- Claim C8: the journey command fails fast with a per-endpoint error (and
the journey-planning call is never issued) when either resolved station has
coordinates exactly `(0, 0)`; the call is issued, with both coordinate
pairs, exactly when both stations have non-`(0,0)` coordinates. -/
theorem journey_validation (fromS toS : Station) :
    ((∃ a b c d, cmd_journey fromS toS = .call a b c d) ↔
      ¬(fromS.lat = 0 ∧ fromS.lon = 0) ∧ ¬(toS.lat = 0 ∧ toS.lon = 0)) ∧
    (cmd_journey fromS toS = .errOrigin ↔ fromS.lat = 0 ∧ fromS.lon = 0) ∧
    (cmd_journey fromS toS = .errDest ↔
      ¬(fromS.lat = 0 ∧ fromS.lon = 0) ∧ toS.lat = 0 ∧ toS.lon = 0) ∧
    (∀ a b c d, cmd_journey fromS toS = .call a b c d →
      a = fromS.lat ∧ b = fromS.lon ∧ c = toS.lat ∧ d = toS.lon) := by
  unfold cmd_journey
  split_ifs with h1 h2
  · refine ⟨by simp [h1], by simp [h1], by simp [h1], by intro a b c d h; cases h⟩
  · refine ⟨by simp [h1, h2], by simp [h1], by simp [h1, h2], ?_⟩
    intro a b c d h
    cases h
  · refine ⟨by simp [h1, h2], by simp [h1], by simp [h2], ?_⟩
    intro a b c d h
    cases h
    exact ⟨rfl, rfl, rfl, rfl⟩

/-- Witness for C8 at concrete stations, one of them at `(0, 0)`. -/
theorem journey_validation_witness :
    cmd_journey ⟨"x", "X", 0, 0, "x"⟩ ⟨"y", "Y", 51, 0, "y"⟩ =
      JourneyAction.errOrigin ∧
    cmd_journey ⟨"y", "Y", 51, 0, "y"⟩ ⟨"x", "X", 0, 0, "x"⟩ =
      JourneyAction.errDest :=
  ⟨((journey_validation ⟨"x", "X", 0, 0, "x"⟩ ⟨"y", "Y", 51, 0, "y"⟩).2.1).mpr
      (by decide),
    ((journey_validation ⟨"y", "Y", 51, 0, "y"⟩ ⟨"x", "X", 0, 0, "x"⟩).2.2.1).mpr
      (by decide)⟩

/-! ## Claim C9: the implicit severity-10 default -/

/-- Claim C9: a status entry lacking `statusSeverity` is treated as
severity 10 everywhere — `format_line` renders it with the table's emoji
for severity 10, the disruption filter counts it as non-disrupted, and the
status sort keys it at 10 (also when the whole `lineStatuses` key is
absent); a line whose status list is empty or absent renders as the single
fallback line and is never classified as disrupted. -/
theorem default_severity_invariant :
    severityEntry 10 = ("🟢", "Good Service") ∧
    (∀ st : LineStatus, st.statusSeverity = none → sevBad st = false) ∧
    (∀ (st : LineStatus) (name : String) (rest : List LineStatus),
      st.statusSeverity = none →
      (statusParts name (st :: rest)).head? =
        some ((severityEntry 10).1 ++ " " ++ name ++ ": " ++
          st.statusSeverityDescription.getD "Unknown")) ∧
    (∀ l : Line, l.lineStatuses = none → statusSortKey l = some 10) ∧
    (∀ (l : Line) (s : LineStatus) (rest : List LineStatus),
      l.lineStatuses = some (s :: rest) → s.statusSeverity = none →
      statusSortKey l = some 10) ∧
    (∀ l : Line, l.lineStatuses = none ∨ l.lineStatuses = some [] →
      format_line l = "⚪ " ++ l.name ++ ": Unknown" ∧
      isDisrupted l = false) := by
  refine ⟨by decide, ?_, ?_, ?_, ?_, ?_⟩
  · intro st h
    simp [sevBad, h]
  · intro st name rest h
    simp [statusParts, h]
  · intro l h
    simp [statusSortKey, h]
  · intro l s rest hl hs
    simp [statusSortKey, hl, hs]
  · intro l h
    rcases h with h | h <;>
      exact ⟨by simp [format_line, h, statusParts],
        by simp [isDisrupted, h]⟩

/-- Witness for C9 at a concrete severity-less status entry and a concrete
line with no `lineStatuses` key. -/
theorem default_severity_invariant_witness :
    sevBad ⟨none, some "Good Service", none⟩ = false ∧
    (statusParts "X" [⟨none, some "Good Service", none⟩]).head? =
      some ("🟢 X: Good Service") ∧
    statusSortKey ⟨"x", "X", "tube", none⟩ = some 10 ∧
    format_line ⟨"x", "X", "tube", none⟩ = "⚪ X: Unknown" := by
  obtain ⟨h10, hbad, hfmt, hkey, -, hfall⟩ := default_severity_invariant
  refine ⟨hbad _ rfl, ?_, hkey _ rfl, (hfall ⟨"x", "X", "tube", none⟩ (Or.inl rfl)).1⟩
  have := hfmt ⟨none, some "Good Service", none⟩ "X" [] rfl
  rwa [h10] at this

/-! ## Claim C10: the `--json` bypass of the not-found branch -/

/-- Claim C10: with `--json` set, `cmd_line` dumps the raw payload and
exits 0 even for an empty fetched list; the non-zero-exit "not found"
branch is reachable only in text mode with an empty list, because the
emptiness check runs after the JSON branch has returned. -/
theorem json_mode_bypass (name : String) (data : List Line) :
    cmd_line true name data = .rawJson data ∧
    lineCmdExitCode (cmd_line true name data) = 0 ∧
    (∀ (j : Bool) (n m : String), cmd_line j n data = .notFound m →
      j = false ∧ data = [] ∧ m = n) ∧
    (cmd_line false name data = .notFound name ↔ data = []) := by
  refine ⟨by simp [cmd_line], by simp [cmd_line, lineCmdExitCode], ?_, ?_⟩
  · intro j n m h
    rcases j with - | -
    · rw [cmd_line] at h
      simp only [Bool.false_eq_true, if_false] at h
      by_cases hd : data.isEmpty
      · rw [if_pos hd] at h
        exact ⟨rfl, List.isEmpty_iff.mp hd, (LineCmdResult.notFound.injEq _ _).mp h.symm⟩
      · rw [if_neg hd] at h
        cases h
    · rw [cmd_line] at h
      simp only [if_true] at h
      cases h
  · constructor
    · intro h
      by_cases hd : data.isEmpty
      · exact List.isEmpty_iff.mp hd
      · rw [cmd_line, if_neg (by simp), if_neg hd] at h
        cases h
    · intro h
      simp [cmd_line, h]

/-- Witness for C10 on the empty fetched list. -/
theorem json_mode_bypass_witness :
    cmd_line true "bakerloo" [] = .rawJson [] ∧
    lineCmdExitCode (cmd_line true "bakerloo" []) = 0 ∧
    cmd_line false "bakerloo" [] = .notFound "bakerloo" := by
  obtain ⟨h1, h2, -, h4⟩ := json_mode_bypass "bakerloo" ([] : List Line)
  exact ⟨h1, h2, h4.mpr rfl⟩

/-- Counterexample to C3 as stated: a severity-6 entry whose description
reads "Minor Delays" is rendered with that description, not with the
table's label "Severe Delays" for severity 6. -/
theorem format_line_label_counterexample :
    format_line ⟨"central", "Central", "tube",
        some [⟨some 6, some "Minor Delays", none⟩]⟩ =
      "🔴 Central: Minor Delays" ∧
    severityEntry 6 = ("🔴", "Severe Delays") ∧
    format_line_claim ⟨"central", "Central", "tube",
        some [⟨some 6, some "Minor Delays", none⟩]⟩ =
      "🔴 Central: Severe Delays" ∧
    format_line ⟨"central", "Central", "tube",
        some [⟨some 6, some "Minor Delays", none⟩]⟩ ≠
      format_line_claim ⟨"central", "Central", "tube",
        some [⟨some 6, some "Minor Delays", none⟩]⟩ := by decide

theorem statusParts_eq_flatMap (name : String) (sts : List LineStatus) :
    statusParts name sts = sts.flatMap (statusLineAmended name) := by
  induction sts with
  | nil => rfl
  | cons st rest ih =>
    simp only [statusParts, List.flatMap_cons, statusLineAmended, ih,
      List.cons_append]

/-- Claim C3 (amended): each rendered status line uses the table's emoji
for its severity, falling back to `"⚪"` for severities absent from the
table, and the record's own `statusSeverityDescription` as label, falling
back to `"Unknown"` when absent; a present non-empty reason is appended
whitespace-normalized (stripped, newlines replaced by spaces) and
indented. -/
theorem format_line_amended_correct :
    (∀ line : Line, format_line line = format_line_amended line) ∧
    (∀ (line : Line) (st : LineStatus),
      SEVERITY.lookup (st.statusSeverity.getD 10) = none →
      (statusLineAmended line.name st).head? =
        some ("⚪ " ++ line.name ++ ": " ++
          st.statusSeverityDescription.getD "Unknown")) ∧
    format_line ⟨"x", "X", "tube", some [⟨some 42, some "Odd", none⟩]⟩ =
      "⚪ X: Odd" ∧
    format_line ⟨"northern", "Northern", "tube",
        some [⟨some 6, some "Severe Delays", some " bad\nnews "⟩]⟩ =
      "🔴 Northern: Severe Delays\n   bad news" := by
  refine ⟨?_, ?_, by decide, by decide⟩
  · intro line
    rw [format_line, format_line_amended, statusParts_eq_flatMap]
    cases h : line.lineStatuses.getD [] with
    | nil => simp
    | cons st rest =>
      rw [if_neg (by simp [List.flatMap_cons, statusLineAmended])]
  · intro line st h
    simp [statusLineAmended, severityEntry, h]

/-- Witness for C3 (amended) at a concrete line and a concrete severity
absent from the table. -/
theorem format_line_amended_witness :
    format_line mockNorthern = format_line_amended mockNorthern ∧
    (statusLineAmended "X" ⟨some 42, some "Odd", none⟩).head? =
      some "⚪ X: Odd" := by
  obtain ⟨heq, hfb, -, -⟩ := format_line_amended_correct
  have h := hfb ⟨"x", "X", "tube", none⟩ ⟨some 42, some "Odd", none⟩ (by decide)
  exact ⟨heq mockNorthern, h.trans (by decide)⟩

theorem insertRun_ne_nil {α κ : Type} [DecidableEq κ] (key : α → κ)
    (x : α) (gs : List (κ × List α)) : insertRun key x gs ≠ [] := by
  cases gs with
  | nil => simp [insertRun]
  | cons q rest =>
    obtain ⟨k, g⟩ := q
    simp only [insertRun]
    split <;> simp

theorem insertRun_flatten {α κ : Type} [DecidableEq κ] (key : α → κ)
    (x : α) (gs : List (κ × List α)) :
    ((insertRun key x gs).map Prod.snd).flatten =
      x :: (gs.map Prod.snd).flatten := by
  cases gs with
  | nil => simp [insertRun]
  | cons q rest =>
    obtain ⟨k, g⟩ := q
    simp only [insertRun]
    split <;> simp

theorem groupRuns_flatten {α κ : Type} [DecidableEq κ] (key : α → κ)
    (l : List α) : ((groupRuns key l).map Prod.snd).flatten = l := by
  induction l with
  | nil => rfl
  | cons x xs ih =>
    rw [groupRuns, insertRun_flatten, ih]

theorem insertRun_keys {α κ : Type} [DecidableEq κ] (key : α → κ)
    (x : α) (gs : List (κ × List α))
    (hgs : ∀ p ∈ gs, p.2 ≠ [] ∧ ∀ a ∈ p.2, key a = p.1) :
    ∀ p ∈ insertRun key x gs, p.2 ≠ [] ∧ ∀ a ∈ p.2, key a = p.1 := by
  cases gs with
  | nil =>
    intro p hp
    rcases List.mem_singleton.mp hp with rfl
    refine ⟨by simp, ?_⟩
    intro a ha
    rcases List.mem_singleton.mp ha with rfl
    rfl
  | cons q rest =>
    obtain ⟨k, g⟩ := q
    simp only [insertRun]
    split
    · rename_i hk
      intro p hp
      rcases List.mem_cons.mp hp with rfl | hp
      · refine ⟨by simp, ?_⟩
        intro a ha
        rcases List.mem_cons.mp ha with rfl | ha
        · exact hk
        · exact (hgs (k, g) (List.mem_cons_self _ _)).2 a ha
      · exact hgs p (List.mem_cons_of_mem _ hp)
    · intro p hp
      rcases List.mem_cons.mp hp with rfl | hp
      · refine ⟨by simp, ?_⟩
        intro a ha
        rcases List.mem_singleton.mp ha with rfl
        rfl
      · exact hgs p hp

theorem groupRuns_keys {α κ : Type} [DecidableEq κ] (key : α → κ)
    (l : List α) :
    ∀ p ∈ groupRuns key l, p.2 ≠ [] ∧ ∀ a ∈ p.2, key a = p.1 := by
  induction l with
  | nil => simp [groupRuns]
  | cons x xs ih =>
    rw [groupRuns]
    exact insertRun_keys key x _ ih

theorem groupRuns_chain {α κ : Type} [DecidableEq κ] (key : α → κ)
    (l : List α) :
    ((groupRuns key l).map Prod.fst).Chain' (fun a b => a ≠ b) := by
  induction l with
  | nil => simp [groupRuns]
  | cons x xs ih =>
    rw [groupRuns]
    cases h : groupRuns key xs with
    | nil => simp [insertRun]
    | cons q rest =>
      obtain ⟨k, g⟩ := q
      rw [h] at ih
      simp only [insertRun]
      split
      · simpa using ih
      · rename_i hk
        simp only [List.map_cons]
        rw [List.chain'_cons]
        simp only [List.map_cons] at ih
        exact ⟨hk, ih⟩

/-- Claim C7: the status command outputs lines sorted ascending by the
first status entry's severity with ties kept in original order (for the
mocked Victoria-10 / Northern-6 / Central-9 response, Northern is listed
first and Victoria last); arrivals are sorted ascending by the pair
`(lineName, timeToStation)`, grouped by consecutive equal `lineName`, and
each group is capped at the configured limit.  Stated for every status
response whose lines all have a defined sort key (a present-but-empty
`lineStatuses` array makes the Python key function raise). -/
theorem status_and_arrivals_order (data : List Line) (arr : List Arrival)
    (limit : Nat) (h : data.all (fun l => (statusSortKey l).isSome) = true) :
    cmd_status data = some ((sortByKey statusKeyD data).map format_line) ∧
    (sortByKey statusKeyD data).Pairwise
      (fun a b => statusKeyD a ≤ statusKeyD b) ∧
    (∀ k : Int, (sortByKey statusKeyD data).filter
        (fun l => decide (statusKeyD l = k)) =
      data.filter (fun l => decide (statusKeyD l = k))) ∧
    List.Perm (sortByKey statusKeyD data) data ∧
    cmd_status [mockVictoria, mockNorthern, mockCentral] =
      some [format_line mockNorthern, format_line mockCentral,
            format_line mockVictoria] ∧
    (sortByKey arrivalKey arr).Pairwise
      (fun a b => arrivalKey a ≤ arrivalKey b) ∧
    (∀ q : String ×ₗ Int, (sortByKey arrivalKey arr).filter
        (fun a => decide (arrivalKey a = q)) =
      arr.filter (fun a => decide (arrivalKey a = q))) ∧
    List.Perm (sortByKey arrivalKey arr) arr ∧
    ((groupRuns arrivalName (sortByKey arrivalKey arr)).map Prod.snd).flatten =
      sortByKey arrivalKey arr ∧
    (∀ p ∈ groupRuns arrivalName (sortByKey arrivalKey arr),
      p.2 ≠ [] ∧ ∀ a ∈ p.2, arrivalName a = p.1) ∧
    ((groupRuns arrivalName (sortByKey arrivalKey arr)).map Prod.fst).Chain'
      (fun a b => a ≠ b) ∧
    cmd_arrivals_groups arr limit =
      (groupRuns arrivalName (sortByKey arrivalKey arr)).map
        (fun g => (g.1, g.2.take limit)) ∧
    (∀ p ∈ cmd_arrivals_groups arr limit, p.2.length ≤ limit) := by
  refine ⟨?_, sortByKey_pairwise statusKeyD data,
    sortByKey_filter_key statusKeyD data, sortByKey_perm statusKeyD data,
    by decide, sortByKey_pairwise arrivalKey arr,
    sortByKey_filter_key arrivalKey arr, sortByKey_perm arrivalKey arr,
    groupRuns_flatten arrivalName _, groupRuns_keys arrivalName _,
    groupRuns_chain arrivalName _, rfl, ?_⟩
  · simp only [cmd_status, sortLinesBySeverity, h, if_true]
    rfl
  · intro p hp
    obtain ⟨g, -, rfl⟩ := List.mem_map.mp hp
    simp only [List.length_take]
    omega

/-- Witness for C7 at the spec's mocked status response. -/
theorem status_and_arrivals_order_witness :
    cmd_status [mockVictoria, mockNorthern, mockCentral] =
      some [format_line mockNorthern, format_line mockCentral,
            format_line mockVictoria] :=
  (status_and_arrivals_order [mockVictoria, mockNorthern, mockCentral]
    [] 5 (by decide)).2.2.2.2.1

/-- Counterexample to C6 as stated: at `timeToStation = 30` the code
renders `"due"` (floor(30/60) = 0 minutes) while the claim's rendering
renders `"0min"`. -/
theorem format_arrival_due_counterexample :
    format_arrival ⟨some "Central", some "Epping Underground Station",
        some "Platform 2", some 30⟩ =
      some "    Epping - due (Platform 2)" ∧
    format_arrival_claim ⟨some "Central", some "Epping Underground Station",
        some "Platform 2", some 30⟩ =
      some "    Epping - 0min (Platform 2)" ∧
    format_arrival ⟨some "Central", some "Epping Underground Station",
        some "Platform 2", some 30⟩ ≠
      format_arrival_claim ⟨some "Central", some "Epping Underground Station",
        some "Platform 2", some 30⟩ := by
  refine ⟨?_, ?_, ?_⟩
  · simp [format_arrival, removeAll, removeAllAux,
      splitOn, splitOnAux, containsSub, containsSubAux, List.isPrefixOf]
  · simp [format_arrival_claim, removeAll, removeAllAux,
      splitOn, splitOnAux, containsSub, containsSubAux, List.isPrefixOf]
    rfl
  · simp [format_arrival, format_arrival_claim, removeAll, removeAllAux,
      splitOn, splitOnAux, containsSub, containsSubAux, List.isPrefixOf]
    decide

theorem splitOnAux_of_not_contains (p : Char) (ps : List Char)
    (l : List Char) (h : containsSubAux p ps l = false) :
    ∀ acc, splitOnAux p ps acc l = [acc.reverse ++ l] := by
  induction l with
  | nil =>
    intro acc
    simp [splitOnAux]
  | cons c rest ih =>
    intro acc
    rw [containsSubAux] at h
    simp only [Bool.or_eq_false_iff, decide_eq_false_iff_not] at h
    rw [splitOnAux, if_neg h.1, ih h.2]
    simp

/-- Python `s.split(sep)` returns the single piece `[s]` when `sep` does
not occur in `s`. -/
theorem splitOn_of_not_contains (pat l : List Char)
    (h : containsSub pat l = false) : splitOn pat l = [l] := by
  cases pat with
  | nil => simp [containsSub] at h
  | cons p ps =>
    rw [splitOn, splitOnAux_of_not_contains p ps l h []]
    simp

/-- Claim C6 (amended): the minutes value is `timeToStation` divided by 60
with floor division, and the time renders `"due"` exactly when that
minutes value is 0 (so for every `timeToStation` in `[0, 60)`, in
particular `0`), otherwise `"Nmin"` (65 renders `"1min"`); the literal
`" Underground Station"` is removed from the destination; the platform
field is split on `" - "` to recover an optional direction prefix,
rendering (with a four-space indent) `"{direction} → {dest} - {time}
({platform})"` when a non-empty direction exists and `"{dest} - {time}
({platform})"` otherwise. -/
theorem format_arrival_amended_correct :
    (∀ a : Arrival, a.timeToStation = none → format_arrival a = none) ∧
    (∀ (ln : Option String) (dest plat : String) (tts : Int),
      (containsSub " - ".data plat.data = false →
        format_arrival ⟨ln, some dest, some plat, some tts⟩ =
          some ("    " ++
            (⟨removeAll " Underground Station".data dest.data⟩ : String) ++
            " - " ++
            (if Int.fdiv tts 60 = 0 then "due"
             else toString (Int.fdiv tts 60) ++ "min") ++
            " (" ++ plat ++ ")")) ∧
      (∀ d pn rest, splitOn " - ".data plat.data = d :: pn :: rest →
        d ≠ [] →
        format_arrival ⟨ln, some dest, some plat, some tts⟩ =
          some ("    " ++ (⟨d⟩ : String) ++ " → " ++
            (⟨removeAll " Underground Station".data dest.data⟩ : String) ++
            " - " ++
            (if Int.fdiv tts 60 = 0 then "due"
             else toString (Int.fdiv tts 60) ++ "min") ++
            " (" ++ (⟨pn⟩ : String) ++ ")")) ∧
      (∀ pn rest, splitOn " - ".data plat.data = [] :: pn :: rest →
        format_arrival ⟨ln, some dest, some plat, some tts⟩ =
          some ("    " ++
            (⟨removeAll " Underground Station".data dest.data⟩ : String) ++
            " - " ++
            (if Int.fdiv tts 60 = 0 then "due"
             else toString (Int.fdiv tts 60) ++ "min") ++
            " (" ++ (⟨pn⟩ : String) ++ ")"))) ∧
    format_arrival ⟨some "Central", some "West Ruislip Underground Station",
        some "Westbound - Platform 1", some 0⟩ =
      some "    Westbound → West Ruislip - due (Platform 1)" ∧
    format_arrival ⟨some "Victoria",
        some "Walthamstow Central Underground Station",
        some "Northbound - Platform 6", some 65⟩ =
      some "    Northbound → Walthamstow Central - 1min (Platform 6)" := by
  refine ⟨?_, ?_, ?_, ?_⟩
  · intro a h
    rw [format_arrival, h]
  · intro ln dest plat tts
    refine ⟨?_, ?_, ?_⟩
    · intro hc
      simp only [format_arrival, hc, Option.getD_some, Bool.false_eq_true,
        if_false, ne_eq, not_true_eq_false, not_false_eq_true]
    · intro d pn rest hsplit hd
      have hc : containsSub " - ".data plat.data = true := by
        cases hc : containsSub " - ".data plat.data with
        | false =>
          rw [splitOn_of_not_contains _ _ hc] at hsplit
          simp at hsplit
        | true => rfl
      have hne : (⟨d⟩ : String) ≠ "" := by
        intro he
        exact hd (congrArg String.data he)
      simp only [format_arrival, hc, if_true, hsplit, Option.getD_some,
        ne_eq, hne, not_false_eq_true, if_true]
    · intro pn rest hsplit
      have hc : containsSub " - ".data plat.data = true := by
        cases hc : containsSub " - ".data plat.data with
        | false =>
          rw [splitOn_of_not_contains _ _ hc] at hsplit
          simp at hsplit
        | true => rfl
      simp only [format_arrival, hc, if_true, hsplit, Option.getD_some,
        ne_eq, not_true_eq_false, if_false]
  · simp [format_arrival, removeAll, removeAllAux, splitOn, splitOnAux,
      containsSub, containsSubAux, List.isPrefixOf]
  · simp [format_arrival, removeAll, removeAllAux, splitOn, splitOnAux,
      containsSub, containsSubAux, List.isPrefixOf]
    rfl

/-- Witness for C6 (amended) at a concrete arrival with a direction
prefix. -/
theorem format_arrival_amended_witness :
    format_arrival ⟨some "Victoria", some "Brixton Underground Station",
        some "Southbound - Platform 5", some 65⟩ =
      some "    Southbound → Brixton - 1min (Platform 5)" := by
  obtain ⟨-, h, -, -⟩ := format_arrival_amended_correct
  obtain ⟨-, h2, -⟩ :=
    h (some "Victoria") "Brixton Underground Station" "Southbound - Platform 5" 65
  have hs : splitOn " - ".data "Southbound - Platform 5".data =
      ["Southbound".data, "Platform 5".data] := by
    simp [splitOn, splitOnAux, List.isPrefixOf]
  have h3 := h2 "Southbound".data "Platform 5".data [] hs (by decide)
  refine h3.trans ?_
  simp [removeAll, removeAllAux, List.isPrefixOf]
  rfl

/-- Counterexample to C4 as stated: on `"victoria  line"` (two internal
spaces) the code strips the whole whitespace run and yields `"victoria"`,
while the claim's literal-suffix strip yields `"victoria "`. -/
theorem normalize_line_suffix_counterexample :
    normalize_line "victoria  line" = "victoria" ∧
    normalize_line_claim "victoria  line" = "victoria " ∧
    normalize_line "victoria  line" ≠ normalize_line_claim "victoria  line" := by
  decide

theorem lookup_alias_cons (a k v : String) (es : List (String × String)) :
    List.lookup a ((k, v) :: es) = if a = k then some v else List.lookup a es := by
  by_cases h : a = k
  · simp [List.lookup, h]
  · have hb : (a == k) = false := by simp [h]
    simp [List.lookup, hb, h]

theorem aliasLookup_eq (t : String) :
    LINE_ALIASES.lookup t = aliasLookupClaim t := by
  simp only [LINE_ALIASES, lookup_alias_cons, List.lookup_nil, aliasLookupClaim]

theorem stripLineSuffix_eq_amended (l : List Char) :
    stripLineSuffix l = stripLineSuffixAmended l := by
  rw [stripLineSuffix, stripLineSuffixAmended]
  rcases hr : l.reverse with - | ⟨c4, - | ⟨c3, - | ⟨c2, - | ⟨c1, - | ⟨c, rest⟩⟩⟩⟩⟩
  · simp [List.isPrefixOf]
  · simp [List.isPrefixOf]
  · simp [List.isPrefixOf]
  · simp [List.isPrefixOf]
  · simp [List.isPrefixOf]
  · by_cases h4 : 'e' = c4
    case neg => simp [List.isPrefixOf, h4]
    subst h4
    by_cases h3 : 'n' = c3
    case neg => simp [List.isPrefixOf, h3]
    subst h3
    by_cases h2 : 'i' = c2
    case neg => simp [List.isPrefixOf, h2]
    subst h2
    by_cases h1 : 'l' = c1
    case neg => simp [List.isPrefixOf, h1]
    subst h1
    by_cases hs : isSpace c
    · simp [List.isPrefixOf, hs]
      intro hcon
      have hle : (List.dropWhile isSpace rest).length ≤ rest.length :=
        (List.dropWhile_sublist isSpace).length_le
      omega
    · simp [List.isPrefixOf, hs, List.dropWhile_cons_of_neg hs, lt_irrefl]

/-- Claim C4 (amended): `normalize_line` applies in order (a) trim and
lowercase, (b) exact alias lookup over the six listed aliases, (c)
otherwise strip a trailing suffix of whitespace followed by `"line"`
(removing the whole whitespace run), (d) re-check the alias table on the
stripped form, (e) else return the string unchanged; it is a pure total
function, with `normalize_line "Victoria Line" = "victoria"`,
`normalize_line "hammersmith & city" = "hammersmith-city"` and
`normalize_line "  victoria  " = "victoria"`. -/
theorem normalize_line_amended_correct :
    (∀ s : String, normalize_line s = normalize_line_amended s) ∧
    normalize_line "Victoria Line" = "victoria" ∧
    normalize_line "hammersmith & city" = "hammersmith-city" ∧
    normalize_line "  victoria  " = "victoria" := by
  refine ⟨?_, by decide, by decide, by decide⟩
  intro s
  rw [normalize_line, normalize_line_amended]
  simp only [aliasLookup_eq, stripLineSuffix_eq_amended]

/-! ## Claim C5: idempotence of `normalize_line`

The claim is false as stated: the regex strips only one trailing
whitespace-plus-`"line"` group per application, so
`normalize_line "foo line line" = "foo line"` while a second application
yields `"foo"`.  Idempotence does hold whenever the normalized form does
not itself end in whitespace followed by `"line"`. -/

/-- Counterexample to C5 as stated: `normalize_line` is not idempotent at
`"foo line line"`. -/
theorem normalize_line_not_idempotent :
    normalize_line "foo line line" = "foo line" ∧
    normalize_line (normalize_line "foo line line") = "foo" ∧
    normalize_line (normalize_line "foo line line") ≠
      normalize_line "foo line line" := by decide

theorem toNat_ofNat_of_upper (n : Nat) (h1 : 65 ≤ n) (h2 : n ≤ 90) :
    (Char.ofNat (n + 32)).toNat = n + 32 := by
  interval_cases n <;> decide

theorem lowerChar_toNat (c : Char) :
    (lowerChar c).toNat =
      if 65 ≤ c.toNat ∧ c.toNat ≤ 90 then c.toNat + 32 else c.toNat := by
  by_cases h : 65 ≤ c.toNat ∧ c.toNat ≤ 90
  · rw [lowerChar, if_pos h, if_pos h]
    exact toNat_ofNat_of_upper c.toNat h.1 h.2
  · rw [lowerChar, if_neg h, if_neg h]

theorem lowerChar_lowerChar (c : Char) :
    lowerChar (lowerChar c) = lowerChar c := by
  by_cases h : 65 ≤ c.toNat ∧ c.toNat ≤ 90
  · have hcond : ¬ (65 ≤ (lowerChar c).toNat ∧ (lowerChar c).toNat ≤ 90) := by
      rw [lowerChar_toNat, if_pos h]
      omega
    conv_lhs => rw [lowerChar]
    rw [if_neg hcond]
  · have heq : lowerChar c = c := by rw [lowerChar, if_neg h]
    rw [heq]
    exact heq

theorem isSpace_lowerChar (c : Char) : isSpace (lowerChar c) = isSpace c := by
  simp only [isSpace, lowerChar_toNat]
  by_cases h : 65 ≤ c.toNat ∧ c.toNat ≤ 90
  · rw [if_pos h, decide_eq_decide]
    omega
  · rw [if_neg h]

theorem map_id_of_forall {α : Type} (f : α → α) (l : List α)
    (h : ∀ c ∈ l, f c = c) : l.map f = l := by
  induction l with
  | nil => rfl
  | cons a as ih =>
    rw [List.map_cons, h a (List.mem_cons_self a as),
      ih (fun c hc => h c (List.mem_cons_of_mem a hc))]

theorem head?_dropWhile_false {α : Type} (p : α → Bool) (l : List α) (c : α)
    (h : (l.dropWhile p).head? = some c) : p c = false := by
  have hm := List.head?_dropWhile_not p l
  rw [h] at hm
  exact hm

theorem dropWhile_eq_self_of_head? {α : Type} (p : α → Bool) (l : List α)
    (h : ∀ c, l.head? = some c → p c = false) : l.dropWhile p = l := by
  cases l with
  | nil => rfl
  | cons a as => rw [List.dropWhile_cons_of_neg (by simp [h a rfl])]

theorem trim_eq_self {l : List Char}
    (h1 : ∀ c, l.head? = some c → isSpace c = false)
    (h2 : ∀ c, l.getLast? = some c → isSpace c = false) : trim l = l := by
  rw [trim, dropWhile_eq_self_of_head? _ _ h1,
    dropWhile_eq_self_of_head? _ _ ?hrev, List.reverse_reverse]
  case hrev =>
    intro c hc
    rw [List.head?_reverse] at hc
    exact h2 c hc

theorem trim_head? {l : List Char} {c : Char}
    (h : (trim l).head? = some c) : isSpace c = false := by
  rw [trim, List.head?_reverse] at h
  obtain ⟨t1, ht1⟩ :=
    List.dropWhile_suffix (l := (l.dropWhile isSpace).reverse) isSpace
  have hx : ((l.dropWhile isSpace).reverse).getLast? = some c := by
    conv_lhs => rw [← ht1]
    rw [List.getLast?_append, h]
    rfl
  rw [List.getLast?_reverse] at hx
  exact head?_dropWhile_false _ _ _ hx

theorem trim_getLast? {l : List Char} {c : Char}
    (h : (trim l).getLast? = some c) : isSpace c = false := by
  rw [trim, List.getLast?_reverse] at h
  exact head?_dropWhile_false _ _ _ h

theorem stripLineSuffix_head? {u : List Char} {c : Char}
    (hu : ∀ d, u.head? = some d → isSpace d = false)
    (h : (stripLineSuffix u).head? = some c) : isSpace c = false := by
  simp only [stripLineSuffix] at h
  split at h
  · split at h
    · rw [List.head?_reverse] at h
      obtain ⟨t1, ht1⟩ :=
        List.dropWhile_suffix (l := u.reverse.drop 4) isSpace
      have h4 : (u.reverse.drop 4).getLast? = some c := by
        conv_lhs => rw [← ht1]
        rw [List.getLast?_append, h]
        rfl
      obtain ⟨t2, ht2⟩ := List.drop_suffix 4 u.reverse
      have h5 : u.reverse.getLast? = some c := by
        conv_lhs => rw [← ht2]
        rw [List.getLast?_append, h4]
        rfl
      rw [List.getLast?_reverse] at h5
      exact hu c h5
    · exact hu c h
  · exact hu c h

theorem stripLineSuffix_getLast? {u : List Char} {c : Char}
    (hu : ∀ d, u.getLast? = some d → isSpace d = false)
    (h : (stripLineSuffix u).getLast? = some c) : isSpace c = false := by
  simp only [stripLineSuffix] at h
  split at h
  · split at h
    · rw [List.getLast?_reverse] at h
      exact head?_dropWhile_false _ _ _ h
    · exact hu c h
  · exact hu c h

theorem stripLineSuffix_subset (u : List Char) :
    ∀ c ∈ stripLineSuffix u, c ∈ u := by
  intro c hc
  simp only [stripLineSuffix] at hc
  split at hc
  · split at hc
    · rw [List.mem_reverse] at hc
      have h1 : c ∈ u.reverse.drop 4 :=
        (List.dropWhile_sublist isSpace).subset hc
      have h2 : c ∈ u.reverse := (List.drop_sublist 4 u.reverse).subset h1
      exact List.mem_reverse.mp h2
    · exact hc
  · exact hc

theorem map_lowerChar_stripLineSuffix {u : List Char}
    (hu : u.map lowerChar = u) :
    (stripLineSuffix u).map lowerChar = stripLineSuffix u := by
  apply map_id_of_forall
  intro c hc
  have hcu := stripLineSuffix_subset u c hc
  rw [← hu] at hcu
  obtain ⟨d, -, rfl⟩ := List.mem_map.mp hcu
  exact lowerChar_lowerChar d

theorem normalize_line_fix (ld : List Char)
    (hstrip : stripLineSuffix ld = ld)
    (hlookup : LINE_ALIASES.lookup (⟨ld⟩ : String) = none)
    (htrim : trim ld = ld)
    (hlower : ld.map lowerChar = ld) :
    normalize_line ⟨ld⟩ = ⟨ld⟩ := by
  simp only [normalize_line]
  rw [htrim, hlower, hlookup, hstrip, hlookup]
  rfl

/-- Claim C5 (amended): `normalize_line` is idempotent at every string
whose normalized form is not itself further reducible by the trailing
whitespace-plus-`"line"` strip; in particular repeated normalization of
`"  victoria  "` is stable (see the witness). -/
theorem normalize_line_idempotent_of_no_line_suffix (s : String)
    (h : stripLineSuffix (normalize_line s).data = (normalize_line s).data) :
    normalize_line (normalize_line s) = normalize_line s := by
  cases hv : LINE_ALIASES.lookup (⟨(trim s.data).map lowerChar⟩ : String) with
  | some v =>
    have ht : normalize_line s = v := by simp only [normalize_line, hv]
    rw [ht]
    rw [aliasLookup_eq, aliasLookupClaim] at hv
    split_ifs at hv
    all_goals rw [← Option.some.inj hv]
    all_goals decide
  | none =>
    cases hv2 : LINE_ALIASES.lookup
        (⟨stripLineSuffix ((trim s.data).map lowerChar)⟩ : String) with
    | some v =>
      have ht : normalize_line s = v := by
        simp only [normalize_line, hv, hv2, Option.getD_some]
      rw [ht]
      rw [aliasLookup_eq, aliasLookupClaim] at hv2
      split_ifs at hv2
      all_goals rw [← Option.some.inj hv2]
      all_goals decide
    | none =>
      have hu_head : ∀ d, ((trim s.data).map lowerChar).head? = some d →
          isSpace d = false := by
        intro d hd
        rw [List.head?_map] at hd
        obtain ⟨d0, hd0, rfl⟩ := Option.map_eq_some'.mp hd
        rw [isSpace_lowerChar]
        exact trim_head? hd0
      have hu_last : ∀ d, ((trim s.data).map lowerChar).getLast? = some d →
          isSpace d = false := by
        intro d hd
        rw [List.getLast?_map] at hd
        obtain ⟨d0, hd0, rfl⟩ := Option.map_eq_some'.mp hd
        rw [isSpace_lowerChar]
        exact trim_getLast? hd0
      have hu_lower : ((trim s.data).map lowerChar).map lowerChar =
          (trim s.data).map lowerChar := by
        rw [List.map_map]
        have hcomp : lowerChar ∘ lowerChar = lowerChar :=
          funext lowerChar_lowerChar
        rw [hcomp]
      have ht : normalize_line s =
          ⟨stripLineSuffix ((trim s.data).map lowerChar)⟩ := by
        simp only [normalize_line, hv, hv2, Option.getD_none]
      rw [ht] at h ⊢
      apply normalize_line_fix
      · exact h
      · exact hv2
      · apply trim_eq_self
        · intro c hc
          exact stripLineSuffix_head? hu_head hc
        · intro c hc
          exact stripLineSuffix_getLast? hu_last hc
      · exact map_lowerChar_stripLineSuffix hu_lower

/-- Witness for C5 (amended): the spec's own instance `"  victoria  "`. -/
theorem normalize_line_idempotent_witness :
    normalize_line (normalize_line "  victoria  ") =
      normalize_line "  victoria  " ∧
    normalize_line "  victoria  " = "victoria" :=
  ⟨normalize_line_idempotent_of_no_line_suffix "  victoria  " (by decide),
    by decide⟩

end Tfl

